import Mathlib

/-!
Verification of the `Block` widget of the `zebubull/ratatui` fork
(`src/widgets/block.rs`): inner-area computation, merge-border area
compensation, border-rect helpers, merged-corner composition, and the
three title passes.

Machine integers (`u16`) are modelled as `Nat`.  Rust's saturating
operations become `sadd`/`ssub` below; Rust's unchecked `+`/`-`/`+=`/`-=`
on `u16` (which panic on overflow/underflow when overflow checks are on)
become the checked operations `cadd`/`csub` returning `Option Nat`, so a
`none` result marks an arithmetic failure of the source program.

Collaborator types that live outside `src/widgets/block.rs` (`Rect`,
`Borders`, `LineParts`, `border::Set`, `Cell`, `Style`, the styled-text
line) are modelled from the spec, as noted on each definition.
-/

set_option autoImplicit false

namespace Ratatui

/-- Largest `u16` value. -/
def U16MAX : Nat := 65535

/-- Rust `u16::saturating_add` (caps at `U16MAX`). -/
def sadd (a b : Nat) : Nat := min (a + b) U16MAX

/-- Rust `u16::saturating_sub` (truncated subtraction). -/
def ssub (a b : Nat) : Nat := a - b

/-- Rust unchecked `u16` addition: `none` models the overflow panic. -/
def cadd (a b : Nat) : Option Nat := if a + b ≤ U16MAX then some (a + b) else none

/-- Rust unchecked `u16` subtraction: `none` models the underflow panic. -/
def csub (a b : Nat) : Option Nat := if b ≤ a then some (a - b) else none

/-- Rust `usize as u16` truncating cast. -/
def asU16 (a : Nat) : Nat := a % (U16MAX + 1)

/-- Modelled from the spec: the Rectangle collaborator — integer `x`, `y`,
`width`, `height` with saturating accessors and intersection. -/
structure Rect where
  x : Nat
  y : Nat
  width : Nat
  height : Nat
  deriving DecidableEq, Repr

namespace Rect

/-- `Rect::left` accessor. -/
def left (r : Rect) : Nat := r.x

/-- `Rect::top` accessor. -/
def top (r : Rect) : Nat := r.y

/-- `Rect::right = x.saturating_add(width)`. -/
def right (r : Rect) : Nat := sadd r.x r.width

/-- `Rect::bottom = y.saturating_add(height)`. -/
def bottom (r : Rect) : Nat := sadd r.y r.height

/-- `Rect::is_empty`: zero width or zero height. -/
def is_empty (r : Rect) : Bool := r.width = 0 || r.height = 0

/-- Modelled from the spec: `Rect::intersection` clamps both corners and
re-derives the size with saturating subtraction. -/
def intersection (r other : Rect) : Rect :=
  let x1 := max r.x other.x
  let y1 := max r.y other.y
  let x2 := min r.right other.right
  let y2 := min r.bottom other.bottom
  { x := x1, y := y1, width := ssub x2 x1, height := ssub y2 y1 }

end Rect

/-- Modelled from the spec: the Edge Selector (`Borders` bitflags) — a set
over {Top, Bottom, Left, Right}. -/
structure Borders where
  top : Bool
  bottom : Bool
  left : Bool
  right : Bool
  deriving DecidableEq, Repr

namespace Borders

/-- `Borders::NONE`. -/
def NONE : Borders := ⟨false, false, false, false⟩

/-- `Borders::TOP`. -/
def TOP : Borders := ⟨true, false, false, false⟩

/-- `Borders::BOTTOM`. -/
def BOTTOM : Borders := ⟨false, true, false, false⟩

/-- `Borders::LEFT`. -/
def LEFT : Borders := ⟨false, false, true, false⟩

/-- `Borders::RIGHT`. -/
def RIGHT : Borders := ⟨false, false, false, true⟩

/-- `Borders::ALL`. -/
def ALL : Borders := ⟨true, true, true, true⟩

/-- Set union (Rust `|`). -/
def union (a b : Borders) : Borders :=
  ⟨a.top || b.top, a.bottom || b.bottom, a.left || b.left, a.right || b.right⟩

/-- `Borders::intersection` (Rust `&`). -/
def intersection (a b : Borders) : Borders :=
  ⟨a.top && b.top, a.bottom && b.bottom, a.left && b.left, a.right && b.right⟩

/-- `intersects`: at least one queried flag is present. -/
def intersects (a b : Borders) : Bool :=
  (a.top && b.top) || (a.bottom && b.bottom) || (a.left && b.left) || (a.right && b.right)

/-- `contains`: every queried flag is present. -/
def contains (a b : Borders) : Bool :=
  (!b.top || a.top) && (!b.bottom || a.bottom) && (!b.left || a.left) && (!b.right || a.right)

/-- `is_empty`: no flag set. -/
def is_empty (a : Borders) : Bool :=
  !a.top && !a.bottom && !a.left && !a.right

end Borders

/-- Title vertical position (`block::title::Position`). -/
inductive Position where
  | Top
  | Bottom
  deriving DecidableEq, Repr

/-- Horizontal alignment (`layout::Alignment`). -/
inductive Alignment where
  | Left
  | Center
  | Right
  deriving DecidableEq, Repr

/-- Modelled from the spec: a style is an opaque mergeable value; optional
fields are patched, a present field in the patch overriding the base. -/
structure Style where
  fg : Option Nat
  bg : Option Nat
  deriving DecidableEq, Repr

namespace Style

/-- `Style::new` / default: everything unset. -/
def new : Style := ⟨none, none⟩

/-- `Style::patch`: fields of `other` override when present. -/
def patch (s other : Style) : Style :=
  { fg := match other.fg with | some v => some v | none => s.fg,
    bg := match other.bg with | some v => some v | none => s.bg }

end Style

/-- Modelled from the spec: the styled-text collaborator reports an integer
display width for a title's content. -/
structure Line where
  width : Nat
  deriving DecidableEq, Repr

/-- A block title: content plus optional explicit position and alignment
(absent means inherit the block default). -/
structure Title where
  content : Line
  position : Option Position
  alignment : Option Alignment
  deriving DecidableEq, Repr

/-- `Padding`: four independent insets. -/
structure Padding where
  left : Nat
  right : Nat
  top : Nat
  bottom : Nat
  deriving DecidableEq, Repr

/-- `Padding::zero()`. -/
def Padding.zero : Padding := ⟨0, 0, 0, 0⟩

/-- Modelled from the spec: the Direction Mask — a 4-bit set over
{Up, Down, Left, Right} describing which directions a glyph extends. -/
structure LineParts where
  up : Bool
  down : Bool
  left : Bool
  right : Bool
  deriving DecidableEq, Repr

namespace LineParts

/-- Bitwise union (Rust `|`). -/
def union (a b : LineParts) : LineParts :=
  ⟨a.up || b.up, a.down || b.down, a.left || b.left, a.right || b.right⟩

/-- Number of directions present in the mask. -/
def count (p : LineParts) : Nat :=
  (if p.up then 1 else 0) + (if p.down then 1 else 0) +
    (if p.left then 1 else 0) + (if p.right then 1 else 0)

/-- Modelled from the spec (§4.1 `directions_of`): Top→Up, Bottom→Down,
Left→Left, Right→Right, union of all selected edges. -/
def ofBorders (b : Borders) : LineParts :=
  ⟨b.top, b.bottom, b.left, b.right⟩

/-- Every direction mask (16 values). -/
def all : List LineParts :=
  [⟨false, false, false, false⟩, ⟨false, false, false, true⟩,
   ⟨false, false, true, false⟩, ⟨false, false, true, true⟩,
   ⟨false, true, false, false⟩, ⟨false, true, false, true⟩,
   ⟨false, true, true, false⟩, ⟨false, true, true, true⟩,
   ⟨true, false, false, false⟩, ⟨true, false, false, true⟩,
   ⟨true, false, true, false⟩, ⟨true, false, true, true⟩,
   ⟨true, true, false, false⟩, ⟨true, true, false, true⟩,
   ⟨true, true, true, false⟩, ⟨true, true, true, true⟩]

end LineParts

/-- Modelled from the spec: the Symbol Table (`border::Set`) — 13 immutable
glyph fields keyed by role. -/
structure BorderSet where
  top_left : Char
  top_right : Char
  bottom_left : Char
  bottom_right : Char
  vertical_left : Char
  vertical_right : Char
  horizontal_top : Char
  horizontal_bottom : Char
  tee_down : Char
  tee_up : Char
  tee_left : Char
  tee_right : Char
  cross : Char
  deriving DecidableEq, Repr

namespace BorderSet

/-- The 13 roles of a symbol table in declaration order, each with the
direction mask that role represents. -/
def roles (s : BorderSet) : List (Char × LineParts) :=
  [(s.top_left, ⟨false, true, false, true⟩),
   (s.top_right, ⟨false, true, true, false⟩),
   (s.bottom_left, ⟨true, false, false, true⟩),
   (s.bottom_right, ⟨true, false, true, false⟩),
   (s.vertical_left, ⟨true, true, false, false⟩),
   (s.vertical_right, ⟨true, true, false, false⟩),
   (s.horizontal_top, ⟨false, false, true, true⟩),
   (s.horizontal_bottom, ⟨false, false, true, true⟩),
   (s.tee_down, ⟨false, true, true, true⟩),
   (s.tee_up, ⟨true, false, true, true⟩),
   (s.tee_left, ⟨true, true, true, false⟩),
   (s.tee_right, ⟨true, true, false, true⟩),
   (s.cross, ⟨true, true, true, true⟩)]

/-- Modelled from the spec: `reverse_lookup` — scan the 13 glyph fields in
role order for an exact match and return that role's direction mask, or
`none` when no role uses the glyph. -/
def line_parts_from_symbol (s : BorderSet) (g : Char) : Option LineParts :=
  (s.roles.find? fun e => e.1 == g).map Prod.snd

/-- Modelled from the spec: `forward_lookup` — total over direction masks;
every mask with at least two directions is canonical for some role, single
directions fall back to the straight-line glyphs, the empty mask to a
space. -/
def symbol_from_line_parts (s : BorderSet) (p : LineParts) : Char :=
  match p with
  | ⟨true, true, true, true⟩ => s.cross
  | ⟨false, true, true, true⟩ => s.tee_down
  | ⟨true, false, true, true⟩ => s.tee_up
  | ⟨true, true, true, false⟩ => s.tee_left
  | ⟨true, true, false, true⟩ => s.tee_right
  | ⟨false, true, false, true⟩ => s.top_left
  | ⟨false, true, true, false⟩ => s.top_right
  | ⟨true, false, false, true⟩ => s.bottom_left
  | ⟨true, false, true, false⟩ => s.bottom_right
  | ⟨true, true, false, false⟩ => s.vertical_left
  | ⟨false, false, true, true⟩ => s.horizontal_top
  | ⟨true, false, false, false⟩ => s.vertical_left
  | ⟨false, true, false, false⟩ => s.vertical_left
  | ⟨false, false, true, false⟩ => s.horizontal_top
  | ⟨false, false, false, true⟩ => s.horizontal_top
  | ⟨false, false, false, false⟩ => ' '

end BorderSet

/-- The plain-line builtin symbol table (`border::PLAIN`). -/
def PLAIN : BorderSet :=
  { top_left := '┌', top_right := '┐', bottom_left := '└', bottom_right := '┘',
    vertical_left := '│', vertical_right := '│',
    horizontal_top := '─', horizontal_bottom := '─',
    tee_down := '┬', tee_up := '┴', tee_left := '┤', tee_right := '├',
    cross := '┼' }

/-- Modelled from the spec: a grid cell holds a display glyph and a style. -/
structure Cell where
  symbol : Char
  style : Style
  deriving DecidableEq, Repr

namespace Cell

/-- `Cell::set_symbol`. -/
def set_symbol (c : Cell) (g : Char) : Cell := { c with symbol := g }

/-- `Cell::set_style`: the argument is patched over the cell's style. -/
def set_style (c : Cell) (s : Style) : Cell := { c with style := c.style.patch s }

end Cell

/-- The `Block` widget configuration (`Block` struct of `block.rs`). -/
structure Block where
  titles : List Title
  titles_style : Style
  titles_alignment : Alignment
  titles_position : Position
  borders : Borders
  merge_borders : Borders
  border_style : Style
  border_set : BorderSet
  style : Style
  padding : Padding
  deriving DecidableEq, Repr

namespace Block

/-- `Block::new`. -/
def new : Block :=
  { titles := [], titles_style := Style.new, titles_alignment := Alignment.Left,
    titles_position := Position.Top, borders := Borders.NONE,
    merge_borders := Borders.NONE, border_style := Style.new,
    border_set := PLAIN, style := Style.new, padding := Padding.zero }

/-- `Block::have_title_at_position`. -/
def have_title_at_position (b : Block) (pos : Position) : Bool :=
  b.titles.any fun t => decide (t.position.getD b.titles_position = pos)

/-- `Block::inner` (`block.rs` lines 527–561).  The four conditional
one-cell insets in source order, then the padding adjustment; the two
padding sums are unchecked `u16` additions in the source, hence `cadd`. -/
def inner (b : Block) (area : Rect) : Option Rect :=
  let i1 :=
    if b.borders.intersects Borders.LEFT && !(b.merge_borders.intersects Borders.LEFT) then
      { area with x := min (sadd area.x 1) area.right, width := ssub area.width 1 }
    else area
  let i2 :=
    if (b.borders.intersects Borders.TOP || b.have_title_at_position Position.Top)
        && !(b.merge_borders.intersects Borders.TOP) then
      { i1 with y := min (sadd i1.y 1) i1.bottom, height := ssub i1.height 1 }
    else i1
  let i3 :=
    if b.borders.intersects Borders.RIGHT && !(b.merge_borders.intersects Borders.RIGHT) then
      { i2 with width := ssub i2.width 1 }
    else i2
  let i4 :=
    if (b.borders.intersects Borders.BOTTOM || b.have_title_at_position Position.Bottom)
        && !(b.merge_borders.intersects Borders.BOTTOM) then
      { i3 with height := ssub i3.height 1 }
    else i3
  let i5 := { i4 with x := sadd i4.x b.padding.left, y := sadd i4.y b.padding.top }
  (cadd b.padding.left b.padding.right).bind fun hpad =>
    (cadd b.padding.top b.padding.bottom).map fun vpad =>
      { i5 with width := ssub i5.width hpad, height := ssub i5.height vpad }

/-- `Block::compensate_area_rect` (lines 677–694): grow the rect toward
each merged border; the size increments are unchecked `u16` additions. -/
def compensate_area_rect (b : Block) (area : Rect) : Option Rect := do
  let r1 := area
  let r2 ←
    if b.merge_borders.intersects Borders.LEFT then do
      let w ← cadd r1.width 1
      pure { r1 with x := ssub r1.x 1, width := w }
    else pure r1
  let r3 ←
    if b.merge_borders.intersects Borders.RIGHT then do
      let w ← cadd r2.width 1
      pure { r2 with width := w }
    else pure r2
  let r4 ←
    if b.merge_borders.intersects Borders.TOP then do
      let h ← cadd r3.height 1
      pure { r3 with y := ssub r3.y 1, height := h }
    else pure r3
  if b.merge_borders.intersects Borders.BOTTOM then do
    let h ← cadd r4.height 1
    pure { r4 with height := h }
  else pure r4

/-- `Block::calculate_vertical_border_rect` (lines 700–710): shrink the
left/right border rect away from merged top/bottom corners; the source uses
unchecked `+= 1` / `-= 1` on `u16`. -/
def calculate_vertical_border_rect (b : Block) (area : Rect) : Option Rect := do
  let r2 ←
    if b.merge_borders.intersects Borders.TOP then do
      let y ← cadd area.y 1
      let h ← csub area.height 1
      pure { area with y := y, height := h }
    else pure area
  if b.merge_borders.intersects Borders.BOTTOM then do
    let h ← csub r2.height 1
    pure { r2 with height := h }
  else pure r2

/-- `Block::calculate_horizontal_border_rect` (lines 716–726): shrink the
top/bottom border rect away from merged left/right corners; unchecked
`u16` arithmetic as in the source. -/
def calculate_horizontal_border_rect (b : Block) (area : Rect) : Option Rect := do
  let r2 ←
    if b.merge_borders.intersects Borders.LEFT then do
      let x ← cadd area.x 1
      let w ← csub area.width 1
      pure { area with x := x, width := w }
    else pure area
  if b.merge_borders.intersects Borders.RIGHT then do
    let w ← csub r2.width 1
    pure { r2 with width := w }
  else pure r2

/-- `Block::render_merged_corner` (lines 770–784): reverse-look-up the
cell's glyph, union with the merge mask's directions, forward-look-up, then
write glyph and border style; returns whether a merge was applied. -/
def render_merged_corner (b : Block) (cell : Cell) (borders_to_merge : Borders) :
    Cell × Bool :=
  if borders_to_merge.is_empty then (cell, false)
  else
    match b.border_set.line_parts_from_symbol cell.symbol with
    | none => (cell, false)
    | some current_parts =>
      let target_parts := current_parts.union (LineParts.ofBorders borders_to_merge)
      let corner_symbol := b.border_set.symbol_from_line_parts target_parts
      ((cell.set_symbol corner_symbol).set_style b.border_style, true)

/-- `Block::render_top_left_corner` (lines 837–852), acting on the corner
cell it reads and writes. -/
def render_top_left_corner_cell (b : Block) (cell : Cell) : Cell :=
  let borders_to_merge := b.merge_borders.intersection (Borders.LEFT.union Borders.TOP)
  let res := b.render_merged_corner cell borders_to_merge
  if res.2 then res.1
  else if b.borders.contains (Borders.LEFT.union Borders.TOP) then
    (cell.set_symbol b.border_set.top_left).set_style b.border_style
  else cell

/-- `Block::render_top_right_corner` (lines 803–818). -/
def render_top_right_corner_cell (b : Block) (cell : Cell) : Cell :=
  let borders_to_merge := b.merge_borders.intersection (Borders.RIGHT.union Borders.TOP)
  let res := b.render_merged_corner cell borders_to_merge
  if res.2 then res.1
  else if b.borders.contains (Borders.RIGHT.union Borders.TOP) then
    (cell.set_symbol b.border_set.top_right).set_style b.border_style
  else cell

/-- `Block::render_bottom_left_corner` (lines 820–835). -/
def render_bottom_left_corner_cell (b : Block) (cell : Cell) : Cell :=
  let borders_to_merge := b.merge_borders.intersection (Borders.LEFT.union Borders.BOTTOM)
  let res := b.render_merged_corner cell borders_to_merge
  if res.2 then res.1
  else if b.borders.contains (Borders.LEFT.union Borders.BOTTOM) then
    (cell.set_symbol b.border_set.bottom_left).set_style b.border_style
  else cell

/-- `Block::render_bottom_right_corner` (lines 786–801). -/
def render_bottom_right_corner_cell (b : Block) (cell : Cell) : Cell :=
  let borders_to_merge := b.merge_borders.intersection (Borders.RIGHT.union Borders.BOTTOM)
  let res := b.render_merged_corner cell borders_to_merge
  if res.2 then res.1
  else if b.borders.contains (Borders.RIGHT.union Borders.BOTTOM) then
    (cell.set_symbol b.border_set.bottom_right).set_style b.border_style
  else cell

/-- `Block::filtered_titles` (lines 950–959). -/
def filtered_titles (b : Block) (pos : Position) (align : Alignment) : List Title :=
  b.titles.filter fun t =>
    decide (t.position.getD b.titles_position = pos)
      && decide (t.alignment.getD b.titles_alignment = align)

/-- `Block::titles_area` (lines 963–978): one line tall, the block width
minus the visible left/right borders, at the top or bottom row of the
given area.  The `x` offset and the bottom-row index use unchecked `u16`
arithmetic in the source. -/
def titles_area (b : Block) (area : Rect) (pos : Position) : Option Rect := do
  let left_border : Nat := if b.borders.contains Borders.LEFT then 1 else 0
  let right_border : Nat := if b.borders.contains Borders.RIGHT then 1 else 0
  let x ← cadd area.left left_border
  let y ←
    match pos with
    | Position.Top => pure area.top
    | Position.Bottom => csub area.bottom 1
  pure { x := x, y := y,
         width := ssub (ssub area.width left_border) right_border, height := 1 }

end Block

end Ratatui

namespace Ratatui

namespace Block

/-- Loop body of `Block::render_right_titles` (lines 860–887): the band
keeps its origin and loses `title_width + 1` columns of width after each
title (both subtractions saturating); each title is painted flush to the
band's current right edge, floored at the band's left edge, with width
clipped to the band. -/
def right_pass (band : Rect) : List Title → List (Title × Rect)
  | [] => []
  | t :: rest =>
    if band.is_empty then []
    else
      let title_width := asU16 t.content.width
      let title_area : Rect :=
        { x := max (ssub band.right title_width) band.left, y := band.y,
          width := min title_width band.width, height := band.height }
      (t, title_area) ::
        right_pass { band with width := ssub (ssub band.width title_width) 1 } rest

/-- `Block::render_right_titles`: the matching titles are processed in
reverse declaration order over the title row. -/
def right_titles_placements (b : Block) (area : Rect) (pos : Position) :
    Option (List (Title × Rect)) :=
  (b.titles_area area pos).map fun band =>
    right_pass band (b.filtered_titles pos Alignment.Right).reverse

/-- Total width of the centered titles (`render_center_titles` lines
898–902): each title contributes its display width plus one separator
(`u16` sum, unchecked in the source), minus one trailing separator,
saturating. -/
def center_total_width (b : Block) (pos : Position) : Option Nat := do
  let s ← (b.filtered_titles pos Alignment.Center).foldlM
    (fun acc t => do
      let w1 ← cadd (asU16 t.content.width) 1
      cadd acc w1)
    0
  pure (ssub s 1)

/-- Loop body of `Block::render_center_titles` (lines 909–925): pack
left-to-right from the centered starting point; the cursor advance adds
`title_width + 1` (the inner `+ 1` is unchecked `u16` addition in the
source). -/
def center_pass (band : Rect) : List Title → Option (List (Title × Rect))
  | [] => some []
  | t :: rest =>
    if band.is_empty then some []
    else do
      let title_width := asU16 t.content.width
      let title_area : Rect := { band with width := min title_width band.width }
      let adv ← cadd title_width 1
      let rest' ← center_pass
        { band with x := sadd band.x adv, width := ssub band.width adv } rest
      pure ((t, title_area) :: rest')

/-- Starting x of the center pass (line 906):
`titles_area.left() + (titles_area.width.saturating_sub(total_width) / 2)`,
the outer addition unchecked in the source. -/
def center_start (b : Block) (area : Rect) (pos : Position) : Option Nat := do
  let total ← b.center_total_width pos
  let ta ← b.titles_area area pos
  cadd ta.left (ssub ta.width total / 2)

/-- `Block::render_center_titles`: centered placements over the title row. -/
def center_titles_placements (b : Block) (area : Rect) (pos : Position) :
    Option (List (Title × Rect)) := do
  let total ← b.center_total_width pos
  let ta ← b.titles_area area pos
  let x ← cadd ta.left (ssub ta.width total / 2)
  center_pass { ta with x := x } (b.filtered_titles pos Alignment.Center)

/-- `Block::render_left_titles` (lines 928–947): identical packing to the
center pass, anchored at the row's left edge. -/
def left_titles_placements (b : Block) (area : Rect) (pos : Position) :
    Option (List (Title × Rect)) := do
  let ta ← b.titles_area area pos
  center_pass ta (b.filtered_titles pos Alignment.Left)

/-- The area a render call actually paints (`render_ref` line 633): the
merge-compensated area intersected with the buffer's area. -/
def render_area (b : Block) (area bufArea : Rect) : Option Rect :=
  (b.compensate_area_rect area).map fun r => r.intersection bufArea

/-- The fallible arithmetic skeleton of `WidgetRef::render_ref` (lines
631–641): compensate and clamp the area, stop early when it is empty,
otherwise evaluate every geometry computation the border and title passes
perform.  A `none` marks a `u16` overflow or underflow panic of the
source. -/
def render_checks (b : Block) (area bufArea : Rect) : Option Unit := do
  let a ← b.render_area area bufArea
  if a.is_empty then pure ()
  else do
    let _ ← b.calculate_horizontal_border_rect a
    let _ ← b.calculate_vertical_border_rect a
    let _ ← b.right_titles_placements a Position.Top
    let _ ← b.center_titles_placements a Position.Top
    let _ ← b.left_titles_placements a Position.Top
    let _ ← b.right_titles_placements a Position.Bottom
    let _ ← b.center_titles_placements a Position.Bottom
    let _ ← b.left_titles_placements a Position.Bottom
    pure ()

end Block

end Ratatui

namespace Ratatui

/-- `Block::bordered`. -/
def Block.bordered : Block := { Block.new with borders := Borders.ALL }

/-- The inner-area computation as the spec describes it: a one-cell inset
on each side whose condition holds (Left/Right: visible and not merged;
Top/Bottom: visible-or-titled and not merged), then the four padding
insets, every subtraction saturating at zero width/height. -/
def inner_spec (b : Block) (area : Rect) : Rect :=
  let insetL : Bool :=
    b.borders.intersects Borders.LEFT && !(b.merge_borders.intersects Borders.LEFT)
  let insetT : Bool :=
    (b.borders.intersects Borders.TOP || b.have_title_at_position Position.Top)
      && !(b.merge_borders.intersects Borders.TOP)
  let insetR : Bool :=
    b.borders.intersects Borders.RIGHT && !(b.merge_borders.intersects Borders.RIGHT)
  let insetB : Bool :=
    (b.borders.intersects Borders.BOTTOM || b.have_title_at_position Position.Bottom)
      && !(b.merge_borders.intersects Borders.BOTTOM)
  { x := sadd (if insetL then min (sadd area.x 1) area.right else area.x) b.padding.left,
    y := sadd (if insetT then min (sadd area.y 1) area.bottom else area.y) b.padding.top,
    width := ssub (ssub (ssub (ssub area.width (if insetL then 1 else 0))
      (if insetR then 1 else 0)) b.padding.left) b.padding.right,
    height := ssub (ssub (ssub (ssub area.height (if insetT then 1 else 0))
      (if insetB then 1 else 0)) b.padding.top) b.padding.bottom }

/-- The merge compensation as the spec describes it: for each merged edge
grow the area by one unit toward that edge (Left/Top: origin back by one,
saturating at zero, and one more unit of size; Right/Bottom: one more unit
of size only). -/
def compensate_spec (b : Block) (area : Rect) : Rect :=
  { x := if b.merge_borders.intersects Borders.LEFT then ssub area.x 1 else area.x,
    y := if b.merge_borders.intersects Borders.TOP then ssub area.y 1 else area.y,
    width := area.width + (if b.merge_borders.intersects Borders.LEFT then 1 else 0)
      + (if b.merge_borders.intersects Borders.RIGHT then 1 else 0),
    height := area.height + (if b.merge_borders.intersects Borders.TOP then 1 else 0)
      + (if b.merge_borders.intersects Borders.BOTTOM then 1 else 0) }

/-- The title row rectangle as the spec describes it, relative to the area
the render pass actually hands the title passes: one cell tall, the area's
width minus one per visible left/right border, at the area's top or bottom
row. -/
def titles_area_spec (b : Block) (a : Rect) (pos : Position) : Rect :=
  { x := a.left + (if b.borders.contains Borders.LEFT then 1 else 0),
    y := match pos with
      | Position.Top => a.top
      | Position.Bottom => ssub a.bottom 1,
    width := ssub (ssub a.width (if b.borders.contains Borders.LEFT then 1 else 0))
      (if b.borders.contains Borders.RIGHT then 1 else 0),
    height := 1 }

/-- The right-aligned title pass as the spec describes it: a band over the
title row; each title is painted with width clipped to the band, flush to
the band's right edge and floored at its left edge; the band then loses
the title's display width plus one separator column, saturating at zero;
the pass stops as soon as the band is empty. -/
def right_pass_spec (rowLeft y height : Nat) (bandWidth : Nat) :
    List Title → List (Title × Rect)
  | [] => []
  | t :: rest =>
    if bandWidth = 0 || height = 0 then []
    else
      let w := asU16 t.content.width
      let bandRight := sadd rowLeft bandWidth
      (t, { x := max (ssub bandRight w) rowLeft, y := y,
            width := min w bandWidth, height := height }) ::
        right_pass_spec rowLeft y height (ssub bandWidth (w + 1)) rest

/-- The four corner cells of a block. -/
inductive Corner where
  | top_left
  | top_right
  | bottom_left
  | bottom_right
  deriving DecidableEq, Repr

/-- The two edges meeting at a corner. -/
def corner_borders : Corner → Borders
  | Corner.top_left => Borders.LEFT.union Borders.TOP
  | Corner.top_right => Borders.RIGHT.union Borders.TOP
  | Corner.bottom_left => Borders.LEFT.union Borders.BOTTOM
  | Corner.bottom_right => Borders.RIGHT.union Borders.BOTTOM

/-- The plain glyph the symbol table assigns to a corner. -/
def Block.corner_symbol (b : Block) : Corner → Char
  | Corner.top_left => b.border_set.top_left
  | Corner.top_right => b.border_set.top_right
  | Corner.bottom_left => b.border_set.bottom_left
  | Corner.bottom_right => b.border_set.bottom_right

/-- Corner resolution at any of the four corners. -/
def Block.render_corner_cell (b : Block) (c : Corner) (cell : Cell) : Cell :=
  match c with
  | Corner.top_left => b.render_top_left_corner_cell cell
  | Corner.top_right => b.render_top_right_corner_cell cell
  | Corner.bottom_left => b.render_bottom_left_corner_cell cell
  | Corner.bottom_right => b.render_bottom_right_corner_cell cell

instance : Fintype LineParts :=
  Fintype.ofList LineParts.all (by
    intro p
    rcases p with ⟨u, d, l, r⟩
    cases u <;> cases d <;> cases l <;> cases r <;> decide)

/-- The spec's Symbol Table invariant: on every mask with at least two
directions the reverse lookup undoes the forward lookup. -/
def well_inverse (s : BorderSet) : Prop :=
  ∀ p : LineParts, 2 ≤ p.count →
    s.line_parts_from_symbol (s.symbol_from_line_parts p) = some p

instance (s : BorderSet) : Decidable (well_inverse s) := by
  unfold well_inverse
  infer_instance

/-- Checked accumulation of title display widths plus one separator each,
mirroring the `u16` sum of the center pass. -/
def csum1 (acc : Nat) : List Nat → Option Nat
  | [] => some acc
  | w :: ws => do
    let w1 ← cadd w 1
    let a ← cadd acc w1
    csum1 a ws

/-- A block with a single default (top) title of display width 4. -/
def blockTopTitle : Block := { Block.new with titles := [⟨⟨4⟩, none, none⟩] }

/-- A block that merges its top and bottom borders and draws its left one. -/
def blockMergeTB : Block :=
  { Block.new with
      borders := Borders.LEFT
      merge_borders := Borders.TOP.union Borders.BOTTOM }

/-- A block that merges its top border and carries a top title. -/
def blockMergeTop : Block :=
  { Block.new with merge_borders := Borders.TOP, titles := [⟨⟨1⟩, none, none⟩] }

/-- A block with visible left and top borders whose left border is merged. -/
def blockCornerMerge : Block :=
  { Block.new with
      borders := Borders.LEFT.union Borders.TOP
      merge_borders := Borders.LEFT }

/-- A borderless block whose left border is merged. -/
def blockMergeLeft : Block := { Block.new with merge_borders := Borders.LEFT }

end Ratatui

namespace Ratatui

/-- A block with one explicitly centered title of display width 3. -/
def blockCenterOnly : Block :=
  { Block.new with titles := [⟨⟨3⟩, none, some Alignment.Center⟩] }

/-- The same centered title surrounded by a left-aligned and a
right-aligned title. -/
def blockCenterMixed : Block :=
  { Block.new with
      titles := [⟨⟨2⟩, none, some Alignment.Left⟩, ⟨⟨3⟩, none, some Alignment.Center⟩,
        ⟨⟨9⟩, none, some Alignment.Right⟩] }

/-- A block with one right-aligned title of display width 3. -/
def blockRightTitle : Block :=
  { Block.new with titles := [⟨⟨3⟩, none, some Alignment.Right⟩] }

end Ratatui

namespace Ratatui

theorem cadd_eq_some {a b c : Nat} : cadd a b = some c ↔ a + b ≤ U16MAX ∧ c = a + b := by
  unfold cadd
  split <;> simp_all
  omega

theorem csub_eq_some {a b c : Nat} : csub a b = some c ↔ b ≤ a ∧ c = a - b := by
  unfold csub
  split <;> simp_all
  omega

theorem lineparts_union_union (a b : LineParts) : (a.union b).union b = a.union b := by
  revert a b
  decide

theorem lineparts_count_union (a b : LineParts) (h : 2 ≤ a.count) :
    2 ≤ (a.union b).count := by
  revert a b
  decide

theorem roles_count (s : BorderSet) (e : Char × LineParts) (he : e ∈ s.roles) :
    2 ≤ e.2.count := by
  simp [BorderSet.roles] at he
  rcases he with h | h | h | h | h | h | h | h | h | h | h | h | h <;> subst h <;>
    simp [LineParts.count]

theorem reverse_count (s : BorderSet) (g : Char) (p : LineParts)
    (h : s.line_parts_from_symbol g = some p) : 2 ≤ p.count := by
  unfold BorderSet.line_parts_from_symbol at h
  rcases Option.map_eq_some'.mp h with ⟨e, he, rfl⟩
  exact roles_count s e (List.mem_of_find?_eq_some he)

theorem patch_patch (a b : Style) : (a.patch b).patch b = a.patch b := by
  unfold Style.patch
  cases b.fg <;> cases b.bg <;> simp

set_option maxHeartbeats 1000000 in
theorem inner_eq (b : Block) (area : Rect) :
    b.inner area =
      if b.padding.left + b.padding.right ≤ U16MAX then
        if b.padding.top + b.padding.bottom ≤ U16MAX then some (inner_spec b area)
        else none
      else none := by
  unfold Block.inner inner_spec cadd
  by_cases h1 : (b.borders.intersects Borders.LEFT
      && !(b.merge_borders.intersects Borders.LEFT)) = true <;>
  by_cases h2 : ((b.borders.intersects Borders.TOP || b.have_title_at_position Position.Top)
      && !(b.merge_borders.intersects Borders.TOP)) = true <;>
  by_cases h3 : (b.borders.intersects Borders.RIGHT
      && !(b.merge_borders.intersects Borders.RIGHT)) = true <;>
  by_cases h4 : ((b.borders.intersects Borders.BOTTOM || b.have_title_at_position Position.Bottom)
      && !(b.merge_borders.intersects Borders.BOTTOM)) = true <;>
  simp only [h1, h2, h3, h4, if_true, if_false, Bool.false_eq_true, reduceIte] <;>
  split_ifs <;>
  simp [Option.bind, ssub, Nat.sub_sub, Rect.mk.injEq, Rect.bottom, Nat.add_assoc]

theorem intersects_union_mono (a e c : Borders) (h : a.intersects c = true) :
    (a.union e).intersects c = true := by
  simp [Borders.intersects, Borders.union] at *
  tauto

theorem have_title_append (b : Block) (t : Title) (pos : Position)
    (h : b.have_title_at_position pos = true) :
    ({ b with titles := b.titles ++ [t] } : Block).have_title_at_position pos = true := by
  simp [Block.have_title_at_position] at *
  rcases h with ⟨x, hx, hp⟩
  exact Or.inl ⟨x, hx, hp⟩

theorem ite_le_ite_of_imp {c d : Bool} (h : c = true → d = true) :
    (if c then (1 : Nat) else 0) ≤ if d then 1 else 0 := by
  cases c <;> cases d <;> simp_all

/-- C1: for every Block configuration and area, `inner` is computed exactly
as the spec describes — a one-cell inset on the left iff Left is visible
and not merged, on the top iff Top is visible or titled and not merged,
symmetrically on the right and bottom (bottom also considering titles),
then the four padding insets, every subtraction saturating at zero; in
particular a borderless block with one top title maps a 1×1 area to the
1×0 area one row down. -/
theorem inner_matches_spec :
    (∀ (b : Block) (area r : Rect), b.inner area = some r → r = inner_spec b area) ∧
    blockTopTitle.inner ⟨0, 0, 1, 1⟩ = some ⟨0, 1, 1, 0⟩ := by
  constructor
  · intro b area r h
    rw [inner_eq] at h
    split_ifs at h
    exact (Option.some.inj h).symm
  · decide

/-- Witness for C1: a fully bordered block on a 5×5 area. -/
theorem inner_matches_spec_witness :
    inner_spec Block.bordered ⟨0, 0, 5, 5⟩ = ⟨1, 1, 3, 3⟩ ∧
    Block.bordered.inner ⟨0, 0, 5, 5⟩ = some ⟨1, 1, 3, 3⟩ :=
  ⟨(inner_matches_spec.1 Block.bordered ⟨0, 0, 5, 5⟩ ⟨1, 1, 3, 3⟩ (by decide)).symm,
   by decide⟩

/-- C10: `inner` never grows its input — the resulting width and height
are bounded by the area's width and height. -/
theorem inner_never_grows : ∀ (b : Block) (area r : Rect), b.inner area = some r →
    r.width ≤ area.width ∧ r.height ≤ area.height := by
  intro b area r h
  rw [inner_eq] at h
  split_ifs at h
  obtain rfl : inner_spec b area = r := Option.some.inj h
  constructor <;> (simp only [inner_spec, ssub]; omega)

/-- Witness for C10: a fully bordered block on a 5×5 area. -/
theorem inner_never_grows_witness :
    (Rect.mk 1 1 3 3).width ≤ (Rect.mk 0 0 5 5).width ∧
    (Rect.mk 1 1 3 3).height ≤ (Rect.mk 0 0 5 5).height :=
  inner_never_grows Block.bordered ⟨0, 0, 5, 5⟩ ⟨1, 1, 3, 3⟩ (by decide)

/-- C7: `inner` is antitone in added constraints — adding visible border
edges, or one more title (which resolves to Top or Bottom), never
increases the inner width or height. -/
theorem inner_antitone :
    ∀ (b : Block) (area : Rect) (e : Borders) (t : Title) (r rb rt : Rect),
    b.inner area = some r →
    ({ b with borders := b.borders.union e } : Block).inner area = some rb →
    ({ b with titles := b.titles ++ [t] } : Block).inner area = some rt →
    (rb.width ≤ r.width ∧ rb.height ≤ r.height) ∧
    (rt.width ≤ r.width ∧ rt.height ≤ r.height) := by
  intro b area e t r rb rt h hb ht
  rw [inner_eq] at h hb ht
  dsimp only at hb ht
  split_ifs at h hb ht
  obtain rfl : inner_spec b area = r := Option.some.inj h
  obtain rfl : inner_spec { b with borders := b.borders.union e } area = rb :=
    Option.some.inj hb
  obtain rfl : inner_spec { b with titles := b.titles ++ [t] } area = rt :=
    Option.some.inj ht
  have kL : (if b.borders.intersects Borders.LEFT
        && !(b.merge_borders.intersects Borders.LEFT) then (1 : Nat) else 0)
      ≤ if (b.borders.union e).intersects Borders.LEFT
        && !(b.merge_borders.intersects Borders.LEFT) then 1 else 0 := by
    refine ite_le_ite_of_imp fun hc => ?_
    rw [Bool.and_eq_true] at hc ⊢
    exact ⟨intersects_union_mono _ _ _ hc.1, hc.2⟩
  have kR : (if b.borders.intersects Borders.RIGHT
        && !(b.merge_borders.intersects Borders.RIGHT) then (1 : Nat) else 0)
      ≤ if (b.borders.union e).intersects Borders.RIGHT
        && !(b.merge_borders.intersects Borders.RIGHT) then 1 else 0 := by
    refine ite_le_ite_of_imp fun hc => ?_
    rw [Bool.and_eq_true] at hc ⊢
    exact ⟨intersects_union_mono _ _ _ hc.1, hc.2⟩
  have kT : (if (b.borders.intersects Borders.TOP
          || b.have_title_at_position Position.Top)
        && !(b.merge_borders.intersects Borders.TOP) then (1 : Nat) else 0)
      ≤ if ((b.borders.union e).intersects Borders.TOP
          || b.have_title_at_position Position.Top)
        && !(b.merge_borders.intersects Borders.TOP) then 1 else 0 := by
    refine ite_le_ite_of_imp fun hc => ?_
    rw [Bool.and_eq_true] at hc ⊢
    refine ⟨?_, hc.2⟩
    rw [Bool.or_eq_true] at hc ⊢
    rcases hc.1 with h1 | h1
    · exact Or.inl (intersects_union_mono _ _ _ h1)
    · exact Or.inr h1
  have kB : (if (b.borders.intersects Borders.BOTTOM
          || b.have_title_at_position Position.Bottom)
        && !(b.merge_borders.intersects Borders.BOTTOM) then (1 : Nat) else 0)
      ≤ if ((b.borders.union e).intersects Borders.BOTTOM
          || b.have_title_at_position Position.Bottom)
        && !(b.merge_borders.intersects Borders.BOTTOM) then 1 else 0 := by
    refine ite_le_ite_of_imp fun hc => ?_
    rw [Bool.and_eq_true] at hc ⊢
    refine ⟨?_, hc.2⟩
    rw [Bool.or_eq_true] at hc ⊢
    rcases hc.1 with h1 | h1
    · exact Or.inl (intersects_union_mono _ _ _ h1)
    · exact Or.inr h1
  have kT2 : (if (b.borders.intersects Borders.TOP
          || b.have_title_at_position Position.Top)
        && !(b.merge_borders.intersects Borders.TOP) then (1 : Nat) else 0)
      ≤ if (b.borders.intersects Borders.TOP
          || ({ b with titles := b.titles ++ [t] } : Block).have_title_at_position Position.Top)
        && !(b.merge_borders.intersects Borders.TOP) then 1 else 0 := by
    refine ite_le_ite_of_imp fun hc => ?_
    rw [Bool.and_eq_true] at hc ⊢
    refine ⟨?_, hc.2⟩
    rw [Bool.or_eq_true] at hc ⊢
    rcases hc.1 with h1 | h1
    · exact Or.inl h1
    · exact Or.inr (have_title_append b t Position.Top h1)
  have kB2 : (if (b.borders.intersects Borders.BOTTOM
          || b.have_title_at_position Position.Bottom)
        && !(b.merge_borders.intersects Borders.BOTTOM) then (1 : Nat) else 0)
      ≤ if (b.borders.intersects Borders.BOTTOM
          || ({ b with titles := b.titles ++ [t] } : Block).have_title_at_position Position.Bottom)
        && !(b.merge_borders.intersects Borders.BOTTOM) then 1 else 0 := by
    refine ite_le_ite_of_imp fun hc => ?_
    rw [Bool.and_eq_true] at hc ⊢
    refine ⟨?_, hc.2⟩
    rw [Bool.or_eq_true] at hc ⊢
    rcases hc.1 with h1 | h1
    · exact Or.inl h1
    · exact Or.inr (have_title_append b t Position.Bottom h1)
  have e1 : ({ b with borders := b.borders.union e } : Block).have_title_at_position
      = b.have_title_at_position := rfl
  refine ⟨⟨?_, ?_⟩, ⟨?_, ?_⟩⟩ <;>
    (simp only [inner_spec, ssub, e1]; omega)

/-- Witness for C7: an empty block gains a left border or a default top
title on a 5×5 area. -/
theorem inner_antitone_witness :
    ((Rect.mk 1 0 4 5).width ≤ (Rect.mk 0 0 5 5).width ∧
      (Rect.mk 1 0 4 5).height ≤ (Rect.mk 0 0 5 5).height) ∧
    ((Rect.mk 0 1 5 4).width ≤ (Rect.mk 0 0 5 5).width ∧
      (Rect.mk 0 1 5 4).height ≤ (Rect.mk 0 0 5 5).height) :=
  inner_antitone Block.new ⟨0, 0, 5, 5⟩ Borders.LEFT ⟨⟨1⟩, none, none⟩
    ⟨0, 0, 5, 5⟩ ⟨1, 0, 4, 5⟩ ⟨0, 1, 5, 4⟩ (by decide) (by decide) (by decide)

/-- C6: whenever the merge compensation completes, it grows the rectangle
by exactly one unit toward each merged edge — Left/Top move the origin
back by one (saturating at zero) and add one to the size, Right/Bottom
only add one to the size, and non-merged edges leave the rectangle
unchanged. -/
theorem compensate_matches_spec : ∀ (b : Block) (area r : Rect),
    b.compensate_area_rect area = some r → r = compensate_spec b area := by
  intro b area r h
  unfold Block.compensate_area_rect at h
  unfold compensate_spec
  by_cases hL : b.merge_borders.intersects Borders.LEFT = true <;>
  by_cases hR : b.merge_borders.intersects Borders.RIGHT = true <;>
  by_cases hT : b.merge_borders.intersects Borders.TOP = true <;>
  by_cases hB : b.merge_borders.intersects Borders.BOTTOM = true <;>
  simp only [hL, hR, hT, hB, if_true, if_false, Bool.false_eq_true] at h ⊢ <;>
  simp [cadd, Option.bind] at h <;>
  (try split_ifs at h) <;>
  (try simp_all [Rect.mk.injEq]) <;>
  (try split_ifs at h) <;>
  (try simp_all [Rect.mk.injEq])

/-- Witness for C6: a block with a merged left border. -/
theorem compensate_matches_spec_witness :
    blockMergeLeft.compensate_area_rect ⟨5, 5, 10, 10⟩ = some ⟨4, 5, 11, 10⟩ ∧
    (Rect.mk 4 5 11 10) = compensate_spec blockMergeLeft ⟨5, 5, 10, 10⟩ :=
  ⟨by decide,
   compensate_matches_spec blockMergeLeft ⟨5, 5, 10, 10⟩ ⟨4, 5, 11, 10⟩ (by decide)⟩

/-- C2: refutation of totality — a block merging its top and bottom
borders, rendered into a one-row buffer, reaches the unchecked
`height -= 1` of `calculate_vertical_border_rect` with height zero: the
`u16` subtraction underflows, so the render path fails instead of
completing.  The first two conjuncts show the failing rect is produced by
the normal render path and is not empty, the last two evaluate the
underflow. -/
theorem render_vertical_rect_underflow :
    blockMergeTB.render_area ⟨0, 0, 3, 1⟩ ⟨0, 0, 10, 1⟩ = some ⟨0, 0, 3, 1⟩ ∧
    (Rect.mk 0 0 3 1).is_empty = false ∧
    blockMergeTB.calculate_vertical_border_rect ⟨0, 0, 3, 1⟩ = none ∧
    blockMergeTB.render_checks ⟨0, 0, 3, 1⟩ ⟨0, 0, 10, 1⟩ = none := by
  decide

/-- C4 counterexample: with a merged top border the title row is laid out
on the merge-expanded area, one row above the top row of the original
area supplied by the caller. -/
theorem titles_row_not_on_original_area :
    blockMergeTop.render_area ⟨0, 5, 3, 3⟩ ⟨0, 0, 50, 50⟩ = some ⟨0, 4, 3, 4⟩ ∧
    blockMergeTop.titles_area ⟨0, 4, 3, 4⟩ Position.Top = some ⟨0, 4, 3, 1⟩ ∧
    (Rect.mk 0 4 3 1).y ≠ (Rect.mk 0 5 3 3).top := by
  decide

/-- C4 amended: the title row rectangle is one cell tall, spans the
width of the area the render pass hands the title passes (the
merge-expanded, buffer-intersected area) minus one per visible left/right
border, and sits at the top or bottom row of that area. -/
theorem titles_row_matches_spec : ∀ (b : Block) (area bufArea a r : Rect) (pos : Position),
    b.render_area area bufArea = some a →
    b.titles_area a pos = some r →
    r = titles_area_spec b a pos := by
  intro b area bufArea a r pos h1 h2
  unfold Block.titles_area at h2
  unfold titles_area_spec
  cases pos <;>
  simp [cadd, csub, Option.bind] at h2 <;>
  split_ifs at h2 <;>
  simp_all [Rect.mk.injEq, ssub]

/-- Witness for C4: a fully bordered block on an 8×3 area. -/
theorem titles_row_matches_spec_witness :
    Block.bordered.render_area ⟨0, 0, 8, 3⟩ ⟨0, 0, 20, 20⟩ = some ⟨0, 0, 8, 3⟩ ∧
    Block.bordered.titles_area ⟨0, 0, 8, 3⟩ Position.Top = some ⟨1, 0, 6, 1⟩ ∧
    (Rect.mk 1 0 6 1) = titles_area_spec Block.bordered ⟨0, 0, 8, 3⟩ Position.Top :=
  ⟨by decide, by decide,
   titles_row_matches_spec Block.bordered ⟨0, 0, 8, 3⟩ ⟨0, 0, 20, 20⟩ ⟨0, 0, 8, 3⟩
     ⟨1, 0, 6, 1⟩ Position.Top (by decide) (by decide)⟩

/-- C3 counterexample: when the merge mask is non-empty, the reverse
lookup of the cell's glyph fails, and both adjoining edges are visible
borders, the corner cell is NOT left untouched — the plain corner glyph
is written. -/
theorem corner_fallback_writes_plain_corner :
    (blockCornerMerge.merge_borders.intersection (corner_borders Corner.top_left)).is_empty
        = false ∧
    blockCornerMerge.border_set.line_parts_from_symbol 'x' = none ∧
    blockCornerMerge.render_top_left_corner_cell ⟨'x', Style.new⟩ ≠ ⟨'x', Style.new⟩ := by
  decide

/-- C3 amended: when the merge mask at a corner is non-empty and the
reverse lookup of the cell's glyph fails, the merge composition is
skipped; the cell then receives the plain corner glyph and border style
when both adjoining edges are visible borders, and is left exactly as it
was otherwise. -/
theorem corner_fallback_amended : ∀ (b : Block) (cell : Cell) (c : Corner),
    (b.merge_borders.intersection (corner_borders c)).is_empty = false →
    b.border_set.line_parts_from_symbol cell.symbol = none →
    b.render_corner_cell c cell =
      if b.borders.contains (corner_borders c) then
        (cell.set_symbol (b.corner_symbol c)).set_style b.border_style
      else cell := by
  intro b cell c hm hr
  cases c <;>
  simp only [Block.render_corner_cell, corner_borders, Block.corner_symbol] at hm ⊢ <;>
  simp [Block.render_top_left_corner_cell, Block.render_top_right_corner_cell,
    Block.render_bottom_left_corner_cell, Block.render_bottom_right_corner_cell,
    Block.render_merged_corner, hm, hr]

/-- Witness for C3: a borderless block with a merged left border leaves
the unknown glyph alone. -/
theorem corner_fallback_amended_witness :
    (blockMergeLeft.merge_borders.intersection (corner_borders Corner.top_left)).is_empty
        = false ∧
    blockMergeLeft.border_set.line_parts_from_symbol 'x' = none ∧
    blockMergeLeft.render_corner_cell Corner.top_left ⟨'x', Style.new⟩ =
      (if blockMergeLeft.borders.contains (corner_borders Corner.top_left) then
        ((Cell.mk 'x' Style.new).set_symbol (blockMergeLeft.corner_symbol Corner.top_left)).set_style
          blockMergeLeft.border_style
      else ⟨'x', Style.new⟩) :=
  ⟨by decide, by decide,
   corner_fallback_amended blockMergeLeft ⟨'x', Style.new⟩ Corner.top_left
     (by decide) (by decide)⟩

/-- C8: merged-corner composition is idempotent — for any non-empty merge
mask and any symbol table satisfying the spec's reverse/forward inverse
invariant, applying `render_merged_corner` a second time to the produced
cell yields an identical cell. -/
theorem merged_corner_idempotent : ∀ (b : Block) (cell : Cell) (mask : Borders),
    mask.is_empty = false →
    well_inverse b.border_set →
    (b.render_merged_corner (b.render_merged_corner cell mask).1 mask).1
      = (b.render_merged_corner cell mask).1 := by
  intro b cell mask hm hwf
  unfold Block.render_merged_corner
  simp only [hm, Bool.false_eq_true, if_false]
  cases hr : b.border_set.line_parts_from_symbol cell.symbol with
  | none => simp [hr]
  | some m =>
    simp only [hr]
    have hc : 2 ≤ m.count := reverse_count _ _ _ hr
    have hc2 : 2 ≤ (m.union (LineParts.ofBorders mask)).count :=
      lineparts_count_union _ _ hc
    have h2 := hwf _ hc2
    simp [Cell.set_symbol, Cell.set_style, h2, lineparts_union_union, patch_patch]

/-- Witness for C8: merging the left edge into a plain top-right corner
glyph twice. -/
theorem merged_corner_idempotent_witness :
    Borders.LEFT.is_empty = false ∧
    well_inverse Block.new.border_set ∧
    (Block.new.render_merged_corner
        (Block.new.render_merged_corner ⟨'┐', Style.new⟩ Borders.LEFT).1 Borders.LEFT).1
      = (Block.new.render_merged_corner ⟨'┐', Style.new⟩ Borders.LEFT).1 :=
  ⟨by decide, by decide,
   merged_corner_idempotent Block.new ⟨'┐', Style.new⟩ Borders.LEFT (by decide) (by decide)⟩

theorem foldlM_csum1 (ts : List Title) (acc : Nat) :
    List.foldlM
      (fun acc t => do
        let w1 ← cadd (asU16 t.content.width) 1
        cadd acc w1)
      acc ts
      = csum1 acc (ts.map fun t => asU16 t.content.width) := by
  induction ts generalizing acc with
  | nil => rfl
  | cons t rest ih =>
    simp only [List.foldlM, List.map, csum1]
    cases h1 : cadd (asU16 t.content.width) 1 with
    | none => rfl
    | some w1 =>
      simp only [Option.bind_eq_bind, Option.some_bind]
      cases h2 : cadd acc w1 with
      | none => rfl
      | some a =>
        simp only [Option.bind_eq_bind, Option.some_bind]
        simpa [Option.bind_eq_bind] using ih a

theorem center_total_eq (b : Block) (pos : Position) :
    b.center_total_width pos =
      (csum1 0 ((b.filtered_titles pos Alignment.Center).map
        fun t => asU16 t.content.width)).map fun s => ssub s 1 := by
  unfold Block.center_total_width
  rw [foldlM_csum1]
  cases csum1 0 ((b.filtered_titles pos Alignment.Center).map
      fun t => asU16 t.content.width) <;> rfl

/-- C5: the centered pass's starting x depends only on the title row and
the centered titles' widths — two blocks equal in defaults and borders
with the same centered-title widths start at the same x regardless of
what the left/right passes render — and when the computation completes
the start equals row-left plus half the slack between the row width and
the centered total width. -/
theorem center_start_independent :
    (∀ (b b2 : Block) (area : Rect) (pos : Position),
      b2.titles_alignment = b.titles_alignment →
      b2.titles_position = b.titles_position →
      b2.borders = b.borders →
      (b2.filtered_titles pos Alignment.Center).map (fun t => t.content.width)
        = (b.filtered_titles pos Alignment.Center).map (fun t => t.content.width) →
      b2.center_start area pos = b.center_start area pos) ∧
    (∀ (b : Block) (area : Rect) (pos : Position) (total : Nat) (ta : Rect) (x : Nat),
      b.center_total_width pos = some total →
      b.titles_area area pos = some ta →
      b.center_start area pos = some x →
      x = ta.left + ssub ta.width total / 2) := by
  constructor
  · intro b b2 area pos hal hpos hbord hw
    have hmap : (b2.filtered_titles pos Alignment.Center).map (fun t => asU16 t.content.width)
        = (b.filtered_titles pos Alignment.Center).map (fun t => asU16 t.content.width) := by
      have := congrArg (List.map asU16) hw
      simpa [List.map_map, Function.comp] using this
    have htot : b2.center_total_width pos = b.center_total_width pos := by
      rw [center_total_eq, center_total_eq, hmap]
    have hta : b2.titles_area area pos = b.titles_area area pos := by
      unfold Block.titles_area
      rw [hbord]
    unfold Block.center_start
    rw [htot, hta]
  · intro b area pos total ta x htot hta hx
    unfold Block.center_start at hx
    rw [htot, hta] at hx
    simp only [Option.bind_eq_bind, Option.some_bind] at hx
    exact (cadd_eq_some.mp hx).2

/-- Witness for C5: adding a left- and a right-aligned title around a
centered one does not move the centered start, which sits at
0 + (10 − 3) / 2. -/
theorem center_start_independent_witness :
    (blockCenterMixed.center_start ⟨0, 0, 10, 1⟩ Position.Top
        = blockCenterOnly.center_start ⟨0, 0, 10, 1⟩ Position.Top) ∧
    (3 : Nat) = (Rect.mk 0 0 10 1).left + ssub (Rect.mk 0 0 10 1).width 3 / 2 :=
  ⟨center_start_independent.1 blockCenterOnly blockCenterMixed ⟨0, 0, 10, 1⟩ Position.Top
      (by decide) (by decide) (by decide) (by decide),
   center_start_independent.2 blockCenterOnly ⟨0, 0, 10, 1⟩ Position.Top 3 ⟨0, 0, 10, 1⟩ 3
      (by decide) (by decide) (by decide)⟩

theorem right_pass_eq (band : Rect) (ts : List Title) :
    Block.right_pass band ts = right_pass_spec band.x band.y band.height band.width ts := by
  induction ts generalizing band with
  | nil => rfl
  | cons t rest ih =>
    unfold Block.right_pass right_pass_spec
    by_cases he : band.is_empty = true
    · have h0 : (decide (band.width = 0) || decide (band.height = 0)) = true := he
      simp [he, h0]
    · have h0 : (decide (band.width = 0) || decide (band.height = 0)) = false := by
        simpa [Rect.is_empty] using he
      simp only [he, h0, Bool.false_eq_true, if_false]
      rw [ih]
      simp [Rect.right, Rect.left, ssub, Nat.sub_sub]

/-- C9: the right title pass processes the matching titles in reverse
declaration order over a band on the title row, painting each title with
width clipped to the band at the band's right edge floored at its left
edge, shrinking the band by the title's width plus one separator
(saturating) and stopping as soon as the band is empty — exactly the
spec's recursion `right_pass_spec`. -/
theorem right_titles_characterized :
    (∀ (band : Rect) (ts : List Title),
      Block.right_pass band ts = right_pass_spec band.x band.y band.height band.width ts) ∧
    (∀ (b : Block) (area : Rect) (pos : Position) (band : Rect),
      b.titles_area area pos = some band →
      b.right_titles_placements area pos =
        some (right_pass_spec band.x band.y band.height band.width
          ((b.filtered_titles pos Alignment.Right).reverse))) := by
  constructor
  · exact right_pass_eq
  · intro b area pos band h
    unfold Block.right_titles_placements
    rw [h]
    simp [right_pass_eq]

/-- Witness for C9: one right-aligned title of width 3 on a 10-wide row. -/
theorem right_titles_characterized_witness :
    blockRightTitle.titles_area ⟨0, 0, 10, 1⟩ Position.Top = some ⟨0, 0, 10, 1⟩ ∧
    blockRightTitle.right_titles_placements ⟨0, 0, 10, 1⟩ Position.Top =
      some (right_pass_spec 0 0 1 10
        ((blockRightTitle.filtered_titles Position.Top Alignment.Right).reverse)) :=
  ⟨by decide,
   right_titles_characterized.2 blockRightTitle ⟨0, 0, 10, 1⟩ Position.Top ⟨0, 0, 10, 1⟩
     (by decide)⟩

end Ratatui
